import Mathlib

/-!
Verification of the waveform repository: the encoding parser of
src/lib/gui.py and the waveform generation engine of src/lib/waveform.py,
shallowly embedded.  Text is modelled as List Char, Python floats as real
numbers (exact arithmetic), and raised exceptions as Except values.
-/

namespace Waveform

/-- Python exceptions observable at the boundary of the embedded code:
ValueError raised by evaluate input (named InvalidInputError at the design
level) and ZeroDivisionError raised by computing 1 / steps with steps = 0. -/
inductive PyError where
| invalidInput : PyError
| zeroDivision : PyError
deriving DecidableEq

/-- Python int(c) for a digit character c: its decimal value.  The source
applies int only to characters matched by [01] or by a digit class. -/
def pyInt (c : Char) : ℕ := c.toNat - 48

/-- Little-endian binary digits of n as characters, structural recursion on a
fuel argument (fuel at least n suffices since n is halved each step).
Mirrors how Python format(n, "b") produces digits by repeated division. -/
def natToBinRev : ℕ → ℕ → List Char
| 0, _ => []
| fuel + 1, n =>
  if n = 0 then [] else (if n % 2 = 1 then '1' else '0') :: natToBinRev fuel (n / 2)

/-- Python format(n, "b"): most-significant bit first, at least one digit. -/
def natToBin (n : ℕ) : List Char :=
  if n = 0 then ['0'] else (natToBinRev n n).reverse

/-- Python format(n, "0Nb") with minimum width w: the binary digits of n,
zero-padded on the left to at least w characters, never truncated. -/
def pyFormatB (w : ℕ) (n : ℕ) : List Char :=
  List.replicate (w - (natToBin n).length) '0' ++ natToBin n

/-- Full match of the source regex [01]+ : one or more binary characters. -/
def matchesBinary (s : List Char) : Bool :=
  !s.isEmpty && s.all (fun c => c == '0' || c == '1')

/-- Full match of the source regex a_.+ (re.ASCII affects only classes such
as a digit class, not the dot, so any character except a newline is accepted
after the prefix): the two-character prefix a underscore, then one or more
characters none of which is a newline. -/
def matchesAscii (s : List Char) : Bool :=
  decide (s.take 2 = ['a', '_']) && !(s.drop 2).isEmpty
    && (s.drop 2).all (fun c => c != '\n')

/-- Full match of the source regex for the decimal scheme: the prefix d
underscore, then one or more digit characters.  The Python digit class also
admits non-ASCII decimal digits; only ASCII digits are modelled here, and no
claim concerns other digits. -/
def matchesDecimal (s : List Char) : Bool :=
  decide (s.take 2 = ['d', '_']) && !(s.drop 2).isEmpty
    && (s.drop 2).all (fun c => c.isDigit)

/-- Embedding of evaluate input from src/lib/gui.py: try the binary pattern,
then the ASCII pattern (7-bit minimum-width codepoint expansion of each
character after the prefix), then the decimal pattern (4-bit minimum-width
expansion of each digit), else raise ValueError. -/
def evaluateInput (inp : List Char) : Except PyError (List Char) :=
  if matchesBinary inp then .ok inp
  else if matchesAscii inp then
    .ok ((inp.drop 2).flatMap (fun c => pyFormatB 7 c.toNat))
  else if matchesDecimal inp then
    .ok ((inp.drop 2).flatMap (fun c => pyFormatB 4 (pyInt c)))
  else .error .invalidInput

/-! The engine of src/lib/waveform.py.  A code is a list of characters (the
tuple produced by the parser), steps a natural number.  Sample values are
real numbers; the two backends are embedded separately. -/

/-- Value of entry j of the numpy time axis arange(0, len(code), 1 / steps):
j / steps. -/
noncomputable def tVal (steps j : ℕ) : ℝ := (j : ℝ) / (steps : ℝ)

/-- numpy base sine table: sin of t[k] times two pi, for entry k. -/
noncomputable def sinT (steps k : ℕ) : ℝ :=
  Real.sin (tVal steps k * (2 * Real.pi))

/-- numpy doubled-frequency sine table: sin of two t[k] times two pi. -/
noncomputable def sin2T (steps k : ℕ) : ℝ :=
  Real.sin (2 * tVal steps k * (2 * Real.pi))

/-- The native time axis: entry 0 is 0.0 and each further entry adds the step
width 1 / steps to its predecessor. -/
noncomputable def tValNative (steps : ℕ) : ℕ → ℝ
| 0 => 0
| j + 1 => tValNative steps j + 1 / (steps : ℝ)

/-- Native base sine table, computed from the native time axis. -/
noncomputable def sinTNative (steps k : ℕ) : ℝ :=
  Real.sin (tValNative steps k * (2 * Real.pi))

/-- Native doubled-frequency sine table. -/
noncomputable def sin2TNative (steps k : ℕ) : ℝ :=
  Real.sin (2 * tValNative steps k * (2 * Real.pi))

/-- The numpy backend updates phase shift once per cycle: it is false at
cycle 0, and cycle idx + 1 xors in whether that cycle's bit has value 0. -/
def psNumpy (code : List Char) : ℕ → Bool
| 0 => false
| idx + 1 => xor (psNumpy code idx) (decide (pyInt (code.getD (idx + 1) '0') = 0))

/-- Whether the native backend toggles phase shift while processing global
sample j: the update sits inside the per-sample loop, guarded by idx above 0,
and xors in whether the current cycle's bit has value 0. -/
def toggleNative (code : List Char) (steps j : ℕ) : Bool :=
  decide (0 < j / steps) && decide (pyInt (code.getD (j / steps) '0') = 0)

/-- Native phase shift after processing global sample j: samples are visited
in increasing order of j, starting from false, toggling at each sample whose
cycle is past cycle 0 and carries a 0 bit. -/
def psNative (code : List Char) (steps : ℕ) : ℕ → Bool
| 0 => xor false (toggleNative code steps 0)
| j + 1 => xor (psNative code steps j) (toggleNative code steps (j + 1))

/-- numpy am sample at global index j: the slice assignment gives position
k = j mod steps of cycle j / steps the value (int(val) + 1) / 2 times the
base sine at k. -/
noncomputable def amVal (code : List Char) (steps j : ℕ) : ℝ :=
  ((pyInt (code.getD (j / steps) '0') : ℝ) + 1) / 2 * sinT steps (j % steps)

/-- numpy fm sample at global index j: the doubled table if int(val) is
truthy, else the base table. -/
noncomputable def fmVal (code : List Char) (steps j : ℕ) : ℝ :=
  if pyInt (code.getD (j / steps) '0') ≠ 0 then sin2T steps (j % steps)
  else sinT steps (j % steps)

/-- numpy pm sample at global index j: factor -1 when the per-cycle phase
shift holds at cycle j / steps, else 1, times the base sine. -/
noncomputable def pmVal (code : List Char) (steps j : ℕ) : ℝ :=
  (if psNumpy code (j / steps) then -1 else 1) * sinT steps (j % steps)

/-- Native am sample at global index j, using sin t at index j mod steps. -/
noncomputable def amValNative (code : List Char) (steps j : ℕ) : ℝ :=
  ((pyInt (code.getD (j / steps) '0') : ℝ) + 1) / 2 * sinTNative steps (j % steps)

/-- Native fm sample at global index j. -/
noncomputable def fmValNative (code : List Char) (steps j : ℕ) : ℝ :=
  if pyInt (code.getD (j / steps) '0') ≠ 0 then sin2TNative steps (j % steps)
  else sinTNative steps (j % steps)

/-- Native pm sample at global index j: the factor is read from the phase
shift state after the per-sample update at j. -/
noncomputable def pmValNative (code : List Char) (steps j : ℕ) : ℝ :=
  (if psNative code steps j then -1 else 1) * sinTNative steps (j % steps)

/-- The tuple of arrays returned by either backend. -/
structure WaveformSet where
  t : List ℝ
  am : List ℝ
  fm : List ℝ
  pm : List ℝ

/-- Embedding of the numpy backend: arrays of length len(code) * steps whose
entries are the closed-form sample values. -/
noncomputable def waveformsNumpy (code : List Char) (steps : ℕ) : WaveformSet where
  t := (List.range (code.length * steps)).map (tVal steps)
  am := (List.range (code.length * steps)).map (amVal code steps)
  fm := (List.range (code.length * steps)).map (fmVal code steps)
  pm := (List.range (code.length * steps)).map (pmVal code steps)

/-- Embedding of the native backend: arrays preallocated to length
steps * len(code), filled by the nested loops; the phase shift update runs
once per sample, not once per cycle. -/
noncomputable def waveformsNative (code : List Char) (steps : ℕ) : WaveformSet where
  t := (List.range (steps * code.length)).map (tValNative steps)
  am := (List.range (steps * code.length)).map (amValNative code steps)
  fm := (List.range (steps * code.length)).map (fmValNative code steps)
  pm := (List.range (steps * code.length)).map (pmValNative code steps)

/-- Embedding of the public waveforms function: both backends start by
computing 1 / steps (inside arange on the numpy path, as the step width on
the native path), which raises ZeroDivisionError when steps = 0; otherwise
the backend selected by the slow flag runs.  No argument validation is
performed. -/
noncomputable def waveforms (slow : Bool) (code : List Char) (steps : ℕ) :
    Except PyError WaveformSet :=
  if steps = 0 then .error .zeroDivision
  else if slow then .ok (waveformsNative code steps)
  else .ok (waveformsNumpy code steps)

/-! Support lemmas. -/

/-- Reading a map over a range at an in-bounds index yields the function. -/
theorem getD_map_range {α : Type} (f : ℕ → α) (d : α) (n j : ℕ) (h : j < n) :
    ((List.range n).map f).getD j d = f j := by
  rw [List.getD_eq_getElem?_getD, List.getElem?_map, List.getElem?_range h]
  rfl

/-- In exact arithmetic the native time recurrence sums to j / steps. -/
theorem tValNative_eq (steps : ℕ) : ∀ j, tValNative steps j = (j : ℝ) / steps := by
  intro j
  induction j with
  | zero => simp [tValNative]
  | succ n ih =>
    rw [tValNative, ih]
    push_cast
    ring

/-- The native base sine table agrees with the numpy one. -/
theorem sinTNative_eq (steps k : ℕ) : sinTNative steps k = sinT steps k := by
  rw [sinTNative, sinT, tValNative_eq, tVal]

/-- The native doubled sine table agrees with the numpy one. -/
theorem sin2TNative_eq (steps k : ℕ) : sin2TNative steps k = sin2T steps k := by
  rw [sin2TNative, sin2T, tValNative_eq, tVal]

/-- With four steps per cycle, base sine entry 1 is sin at half pi, which
is 1. -/
theorem sinT_four_one : sinT 4 1 = 1 := by
  rw [sinT, tVal]
  norm_num
  rw [show (1 : ℝ) / 4 * (2 * Real.pi) = Real.pi / 2 by ring]
  exact Real.sin_pi_div_two

/-- Equality of parse outcomes is decidable, so concrete runs of the parser
can be checked by evaluation. -/
instance : DecidableEq (Except PyError (List Char)) := fun a b =>
  match a, b with
  | .error e, .error f =>
    if h : e = f then .isTrue (congrArg Except.error h)
    else .isFalse (fun hh => h (Except.error.inj hh))
  | .ok x, .ok y =>
    if h : x = y then .isTrue (congrArg Except.ok h)
    else .isFalse (fun hh => h (Except.ok.inj hh))
  | .error _, .ok _ => .isFalse (fun hh => Except.noConfusion hh)
  | .ok _, .error _ => .isFalse (fun hh => Except.noConfusion hh)

/-- A nonempty all-binary string matches the binary pattern. -/
theorem matchesBinary_of (s : List Char) (h1 : s ≠ [])
    (h2 : ∀ c ∈ s, c = '0' ∨ c = '1') : matchesBinary s = true := by
  simp only [matchesBinary, Bool.and_eq_true, List.all_eq_true]
  refine ⟨by simp [h1], fun c hc => ?_⟩
  rcases h2 c hc with h | h <;> simp [h]

/-- A prefixed nonempty digit payload matches the decimal pattern. -/
theorem matchesDecimal_of (D : List Char) (h1 : D ≠ [])
    (h2 : ∀ c ∈ D, c.isDigit = true) :
    matchesDecimal ('d' :: '_' :: D) = true := by
  simp only [matchesDecimal, Bool.and_eq_true, List.all_eq_true,
    List.drop_succ_cons, List.drop_zero]
  exact ⟨⟨by simp, by simp [h1]⟩, h2⟩

/-- A prefixed nonempty newline-free payload matches the ASCII pattern. -/
theorem matchesAscii_of (S : List Char) (h1 : S ≠ [])
    (h2 : ∀ c ∈ S, c ≠ '\n') :
    matchesAscii ('a' :: '_' :: S) = true := by
  simp only [matchesAscii, Bool.and_eq_true, List.all_eq_true,
    List.drop_succ_cons, List.drop_zero]
  refine ⟨⟨by simp, by simp [h1]⟩, fun c hc => ?_⟩
  simpa using h2 c hc

/-- C9: for every nonempty string of binary characters, parsing succeeds and
returns the input characters themselves, in order. -/
theorem binary_parse_identity (s : List Char) (h1 : s ≠ [])
    (h2 : ∀ c ∈ s, c = '0' ∨ c = '1') :
    evaluateInput s = .ok s := by
  simp [evaluateInput, matchesBinary_of s h1 h2]

/-- Witness for C9 at a concrete binary input. -/
theorem binary_parse_identity_witness :
    evaluateInput ['0', '1'] = .ok ['0', '1'] :=
  binary_parse_identity ['0', '1'] (by decide) (by decide)

/-- C8: for every nonempty digit payload after the decimal prefix, parsing
succeeds and returns the concatenation, in input order, of each digit's
4-bit minimum-width most-significant-bit-first binary value. -/
theorem bcd_parse_concat (D : List Char) (h1 : D ≠ [])
    (h2 : ∀ c ∈ D, c.isDigit = true) :
    evaluateInput ('d' :: '_' :: D) =
      .ok (D.flatMap (fun c => pyFormatB 4 (pyInt c))) := by
  have hb : matchesBinary ('d' :: '_' :: D) = false := rfl
  have ha : matchesAscii ('d' :: '_' :: D) = false := rfl
  simp [evaluateInput, hb, ha, matchesDecimal_of D h1 h2]

/-- Witness for C8 at the two inputs named by the claim. -/
theorem bcd_parse_concat_witness :
    evaluateInput ['d', '_', '9'] = .ok ['1', '0', '0', '1'] ∧
    evaluateInput ['d', '_', '1', '2'] =
      .ok ['0', '0', '0', '1', '0', '0', '1', '0'] := by
  constructor
  · exact (bcd_parse_concat ['9'] (by decide) (by decide)).trans (by decide)
  · exact (bcd_parse_concat ['1', '2'] (by decide) (by decide)).trans (by decide)

/-- C4 counterexample: the character with codepoint 233 lies outside 0-127,
yet parsing the prefixed input succeeds, emitting that character's full
8-bit binary codepoint rather than raising the parse error. -/
theorem ascii_high_codepoint_accepted :
    evaluateInput ['a', '_', Char.ofNat 233] =
      .ok ['1', '1', '1', '0', '1', '0', '0', '1'] ∧
    evaluateInput ['a', '_', Char.ofNat 233] ≠ .error .invalidInput := by
  constructor
  · decide
  · decide

set_option maxRecDepth 8000 in
/-- C4 amended: for a nonempty newline-free payload after the ASCII prefix,
parsing succeeds even when characters have codepoints above 127: each
character expands to its full most-significant-bit-first binary codepoint
padded to at least 7 bits, and a codepoint between 128 and 255 yields
exactly 8 bits, so an out-of-range codepoint is widened, never truncated
and never a parse error.  The dot of the pattern never matches a newline,
so only a newline or an empty payload makes this branch fail, independent
of codepoint range. -/
theorem ascii_parse_full_codepoint (S : List Char) (h1 : S ≠ [])
    (h2 : ∀ c ∈ S, c ≠ '\n') :
    evaluateInput ('a' :: '_' :: S) =
      .ok (S.flatMap (fun c => pyFormatB 7 c.toNat)) ∧
    ∀ n : Fin 256, 128 ≤ n.val → (pyFormatB 7 n.val).length = 8 := by
  refine ⟨?_, ?_⟩
  · have hb : matchesBinary ('a' :: '_' :: S) = false := rfl
    simp [evaluateInput, hb, matchesAscii_of S h1 h2]
  · decide

/-- Witness for the amended C4 at the codepoint-233 input. -/
theorem ascii_parse_full_codepoint_witness :
    evaluateInput ['a', '_', Char.ofNat 233] =
      .ok ([Char.ofNat 233].flatMap (fun c => pyFormatB 7 c.toNat)) ∧
    (pyFormatB 7 233).length = 8 := by
  have h := ascii_parse_full_codepoint [Char.ofNat 233] (by decide) (by decide)
  exact ⟨h.1, h.2 ⟨233, by decide⟩ (by decide)⟩

/-- With four steps per cycle, base sine entry 3 is sin at three half pi,
which is -1. -/
theorem sinT_four_three : sinT 4 3 = -1 := by
  rw [sinT, tVal]
  norm_num
  rw [show (3 : ℝ) / 4 * (2 * Real.pi) = Real.pi / 2 + Real.pi by ring,
    Real.sin_add_pi, Real.sin_pi_div_two]

/-- The base sine table entry equals the sine stated by the spec. -/
theorem sinT_eq_spec (steps k : ℕ) :
    sinT steps k = Real.sin (2 * Real.pi * (k : ℝ) / steps) := by
  rw [sinT, tVal]
  congr 1
  ring

/-- The doubled sine table entry equals the sine stated by the spec. -/
theorem sin2T_eq_spec (steps k : ℕ) :
    sin2T steps k = Real.sin (2 * Real.pi * 2 * (k : ℝ) / steps) := by
  rw [sin2T, tVal]
  congr 1
  ring

/-- C5: for a valid nonempty bit sequence and positive steps, both backends
return four arrays of length len(code) * steps whose time entries are
j / steps. -/
theorem generate_shape_time (code : List Char) (steps : ℕ)
    (hn : 1 ≤ code.length) (hs : 1 ≤ steps)
    (hv : ∀ c ∈ code, c = '0' ∨ c = '1') :
    ((waveformsNumpy code steps).t.length = code.length * steps ∧
     (waveformsNumpy code steps).am.length = code.length * steps ∧
     (waveformsNumpy code steps).fm.length = code.length * steps ∧
     (waveformsNumpy code steps).pm.length = code.length * steps ∧
     (waveformsNative code steps).t.length = code.length * steps ∧
     (waveformsNative code steps).am.length = code.length * steps ∧
     (waveformsNative code steps).fm.length = code.length * steps ∧
     (waveformsNative code steps).pm.length = code.length * steps) ∧
    ∀ j, j < code.length * steps →
      (waveformsNumpy code steps).t.getD j 0 = (j : ℝ) / steps ∧
      (waveformsNative code steps).t.getD j 0 = (j : ℝ) / steps := by
  have hc : steps * code.length = code.length * steps := Nat.mul_comm _ _
  constructor
  · simp [waveformsNumpy, waveformsNative, hc]
  · intro j hj
    have hj' : j < steps * code.length := hc ▸ hj
    constructor
    · exact getD_map_range (tVal steps) 0 _ j hj
    · rw [show (waveformsNative code steps).t
          = (List.range (steps * code.length)).map (tValNative steps) from rfl,
        getD_map_range (tValNative steps) 0 _ j hj', tValNative_eq]

/-- Witness for C5 at one bit and two steps. -/
theorem generate_shape_time_witness :
    (waveformsNumpy ['1'] 2).t.length = 2 ∧
    (waveformsNative ['1'] 2).t.getD 1 0 = (1 : ℝ) / 2 := by
  have h := generate_shape_time ['1'] 2 (by decide) (by decide)
    (by intro c hc; simp at hc; simp [hc])
  refine ⟨?_, ?_⟩
  · have := h.1.1
    simpa using this
  · have := (h.2 1 (by norm_num)).2
    simpa using this

/-- C6: every am sample of either backend is the bit value shifted to the
levels 1 or 2, halved, times the base carrier sine at the in-cycle offset. -/
theorem am_sample_formula (code : List Char) (steps : ℕ) (hs : 1 ≤ steps)
    (hv : ∀ c ∈ code, c = '0' ∨ c = '1') (j : ℕ)
    (hj : j < code.length * steps) :
    (waveformsNumpy code steps).am.getD j 0 =
      ((pyInt (code.getD (j / steps) '0') : ℝ) + 1) / 2 *
        Real.sin (2 * Real.pi * ((j % steps : ℕ) : ℝ) / steps) ∧
    (waveformsNative code steps).am.getD j 0 =
      ((pyInt (code.getD (j / steps) '0') : ℝ) + 1) / 2 *
        Real.sin (2 * Real.pi * ((j % steps : ℕ) : ℝ) / steps) := by
  have hj' : j < steps * code.length := Nat.mul_comm code.length steps ▸ hj
  constructor
  · rw [show (waveformsNumpy code steps).am
        = (List.range (code.length * steps)).map (amVal code steps) from rfl,
      getD_map_range _ 0 _ j hj, amVal, sinT_eq_spec]
  · rw [show (waveformsNative code steps).am
        = (List.range (steps * code.length)).map (amValNative code steps) from rfl,
      getD_map_range _ 0 _ j hj', amValNative, sinTNative_eq, sinT_eq_spec]

/-- Witness for C6 at bits 1 0, four steps, sample 5 of cycle 1. -/
theorem am_sample_formula_witness :
    (waveformsNumpy ['1', '0'] 4).am.getD 5 0 =
      ((pyInt ((['1', '0'] : List Char).getD (5 / 4) '0') : ℝ) + 1) / 2 *
        Real.sin (2 * Real.pi * (((5 : ℕ) % 4 : ℕ) : ℝ) / 4) ∧
    (waveformsNative ['1', '0'] 4).am.getD 5 0 =
      ((pyInt ((['1', '0'] : List Char).getD (5 / 4) '0') : ℝ) + 1) / 2 *
        Real.sin (2 * Real.pi * (((5 : ℕ) % 4 : ℕ) : ℝ) / 4) :=
  am_sample_formula ['1', '0'] 4 (by norm_num)
    (by intro c hc; simp at hc; rcases hc with h | h <;> simp [h]) 5 (by norm_num)

/-- C7: every fm sample of either backend is the doubled-frequency sine when
the bit is 1 and the base-frequency sine when the bit is 0, at the in-cycle
offset. -/
theorem fm_sample_formula (code : List Char) (steps : ℕ) (hs : 1 ≤ steps)
    (hv : ∀ c ∈ code, c = '0' ∨ c = '1') (j : ℕ)
    (hj : j < code.length * steps) :
    (code.getD (j / steps) '0' = '1' →
      (waveformsNumpy code steps).fm.getD j 0 =
        Real.sin (2 * Real.pi * 2 * ((j % steps : ℕ) : ℝ) / steps) ∧
      (waveformsNative code steps).fm.getD j 0 =
        Real.sin (2 * Real.pi * 2 * ((j % steps : ℕ) : ℝ) / steps)) ∧
    (code.getD (j / steps) '0' = '0' →
      (waveformsNumpy code steps).fm.getD j 0 =
        Real.sin (2 * Real.pi * ((j % steps : ℕ) : ℝ) / steps) ∧
      (waveformsNative code steps).fm.getD j 0 =
        Real.sin (2 * Real.pi * ((j % steps : ℕ) : ℝ) / steps)) := by
  have hj' : j < steps * code.length := Nat.mul_comm code.length steps ▸ hj
  have en : (waveformsNumpy code steps).fm.getD j 0 = fmVal code steps j := by
    rw [show (waveformsNumpy code steps).fm
        = (List.range (code.length * steps)).map (fmVal code steps) from rfl,
      getD_map_range _ 0 _ j hj]
  have ev : (waveformsNative code steps).fm.getD j 0 = fmValNative code steps j := by
    rw [show (waveformsNative code steps).fm
        = (List.range (steps * code.length)).map (fmValNative code steps) from rfl,
      getD_map_range _ 0 _ j hj']
  constructor
  · intro h1
    have hp : pyInt (code.getD (j / steps) '0') = 1 := by rw [h1]; rfl
    rw [en, ev, fmVal, fmValNative, hp, sin2TNative_eq]
    norm_num [sin2T_eq_spec]
  · intro h0
    have hp : pyInt (code.getD (j / steps) '0') = 0 := by rw [h0]; rfl
    rw [en, ev, fmVal, fmValNative, hp, sinTNative_eq]
    norm_num [sinT_eq_spec]

/-- Witness for C7 at bits 1 0, four steps: sample 1 lies in the 1 cycle and
sample 5 in the 0 cycle. -/
theorem fm_sample_formula_witness :
    (waveformsNumpy ['1', '0'] 4).fm.getD 1 0 =
      Real.sin (2 * Real.pi * 2 * (((1 : ℕ) % 4 : ℕ) : ℝ) / 4) ∧
    (waveformsNative ['1', '0'] 4).fm.getD 5 0 =
      Real.sin (2 * Real.pi * (((5 : ℕ) % 4 : ℕ) : ℝ) / 4) := by
  have hv : ∀ c ∈ (['1', '0'] : List Char), c = '0' ∨ c = '1' := by
    intro c hc; simp at hc; rcases hc with h | h <;> simp [h]
  refine ⟨?_, ?_⟩
  · exact ((fm_sample_formula ['1', '0'] 4 (by norm_num) hv 1 (by norm_num)).1 rfl).1
  · exact ((fm_sample_formula ['1', '0'] 4 (by norm_num) hv 5 (by norm_num)).2 rfl).2

/-- C10: for the empty bit sequence and any positive steps, waveforms raises
nothing in either backend and returns four empty arrays; no argument
validation runs before computing. -/
theorem waveforms_empty_bits_ok (slow : Bool) (steps : ℕ) (hs : 1 ≤ steps) :
    waveforms slow [] steps = .ok ⟨[], [], [], []⟩ := by
  have h0 : steps ≠ 0 := by omega
  cases slow <;> simp [waveforms, h0, waveformsNumpy, waveformsNative]

/-- Witness for C10 on the scalar backend at one step per cycle. -/
theorem waveforms_empty_bits_ok_witness :
    waveforms true [] 1 = .ok ⟨[], [], [], []⟩ :=
  waveforms_empty_bits_ok true 1 (by norm_num)

/-- C3 counterexample: at the default resolution, the empty bit sequence
does not raise anything; both backends return a result, four empty arrays,
so the claimed InvalidArgumentError is never produced. -/
theorem waveforms_empty_bits_no_error :
    waveforms false [] 200 = .ok ⟨[], [], [], []⟩ ∧
    waveforms true [] 200 = .ok ⟨[], [], [], []⟩ ∧
    ∀ e : PyError, waveforms false [] 200 ≠ .error e := by
  refine ⟨?_, ?_, ?_⟩
  · simp [waveforms, waveformsNumpy]
  · simp [waveforms, waveformsNative]
  · intro e h
    rw [show waveforms false [] 200 = .ok ⟨[], [], [], []⟩ by
      simp [waveforms, waveformsNumpy]] at h
    exact Except.noConfusion h

/-- C3 amended: waveforms validates nothing.  With steps = 0 both backends
fail by computing 1 / steps, a ZeroDivisionError rather than an
InvalidArgumentError; with positive steps and empty bits the call succeeds
and returns four empty arrays. -/
theorem waveforms_no_validation (slow : Bool) (code : List Char) (steps : ℕ) :
    (steps = 0 → waveforms slow code steps = .error .zeroDivision) ∧
    (1 ≤ steps → code = [] → waveforms slow code steps = .ok ⟨[], [], [], []⟩) := by
  constructor
  · intro h
    simp [waveforms, h]
  · intro hs hc
    have h0 : steps ≠ 0 := by omega
    cases slow <;> simp [waveforms, h0, hc, waveformsNumpy, waveformsNative]

/-- Witness for the amended C3: steps 0 raises the division error, empty
bits with positive steps succeed. -/
theorem waveforms_no_validation_witness :
    waveforms true ['1'] 0 = .error .zeroDivision ∧
    waveforms false [] 7 = .ok ⟨[], [], [], []⟩ :=
  ⟨(waveforms_no_validation true ['1'] 0).1 rfl,
   (waveforms_no_validation false [] 7).2 (by norm_num) rfl⟩

/-- C1: on bits 1 0 with four steps per cycle, pm sample 5 is -1 under the
numpy backend but 1 under the native backend, an absolute difference of 2,
far beyond the claimed 1e-9 tolerance.  The native backend repeats the
phase-shift update at every sample of the 0 cycle instead of once per
cycle. -/
theorem backend_pm_divergence :
    (waveformsNumpy ['1', '0'] 4).pm.getD 5 0 = -1 ∧
    (waveformsNative ['1', '0'] 4).pm.getD 5 0 = 1 ∧
    ¬ |(waveformsNumpy ['1', '0'] 4).pm.getD 5 0 -
        (waveformsNative ['1', '0'] 4).pm.getD 5 0| ≤ 1 / 1000000000 := by
  have hps : psNumpy ['1', '0'] 1 = true := by decide
  have hpsn : psNative ['1', '0'] 4 5 = false := by decide
  have e1 : (waveformsNumpy ['1', '0'] 4).pm.getD 5 0 = pmVal ['1', '0'] 4 5 := by
    rw [show (waveformsNumpy ['1', '0'] 4).pm
        = (List.range ((['1', '0'] : List Char).length * 4)).map (pmVal ['1', '0'] 4)
        from rfl, getD_map_range _ 0 _ 5 (by norm_num)]
  have e2 : pmVal ['1', '0'] 4 5 = -1 := by
    rw [pmVal, show (5 : ℕ) / 4 = 1 from rfl, show (5 : ℕ) % 4 = 1 from rfl,
      hps, sinT_four_one]
    norm_num
  have e3 : (waveformsNative ['1', '0'] 4).pm.getD 5 0 = pmValNative ['1', '0'] 4 5 := by
    rw [show (waveformsNative ['1', '0'] 4).pm
        = (List.range (4 * (['1', '0'] : List Char).length)).map (pmValNative ['1', '0'] 4)
        from rfl, getD_map_range _ 0 _ 5 (by norm_num)]
  have e4 : pmValNative ['1', '0'] 4 5 = 1 := by
    rw [pmValNative, show (5 : ℕ) % 4 = 1 from rfl, hpsn, sinTNative_eq, sinT_four_one]
    norm_num
  refine ⟨e1.trans e2, e3.trans e4, ?_⟩
  rw [e1.trans e2, e3.trans e4]
  norm_num

/-- C2: on bits 1 1 0 with four steps per cycle, the native pm signs inside
cycle 2 (bit 0) are not uniform: sample 9 is 1 and sample 11 is -1, whereas
the claim demands every cycle-2 sample equal the flipped base sine, as the
numpy backend's -1 at sample 9 does.  The native phase shift toggles at each
sample of the 0 cycle. -/
theorem native_pm_sign_not_uniform :
    (waveformsNative ['1', '1', '0'] 4).pm.getD 9 0 = 1 ∧
    (waveformsNative ['1', '1', '0'] 4).pm.getD 11 0 = -1 ∧
    -(sinT 4 1) = -1 ∧
    (waveformsNumpy ['1', '1', '0'] 4).pm.getD 9 0 = -1 := by
  have h9 : psNative ['1', '1', '0'] 4 9 = false := by decide
  have h11 : psNative ['1', '1', '0'] 4 11 = false := by decide
  have hn2 : psNumpy ['1', '1', '0'] 2 = true := by decide
  have e9 : (waveformsNative ['1', '1', '0'] 4).pm.getD 9 0
      = pmValNative ['1', '1', '0'] 4 9 := by
    rw [show (waveformsNative ['1', '1', '0'] 4).pm
        = (List.range (4 * (['1', '1', '0'] : List Char).length)).map
            (pmValNative ['1', '1', '0'] 4) from rfl,
      getD_map_range _ 0 _ 9 (by norm_num)]
  have e11 : (waveformsNative ['1', '1', '0'] 4).pm.getD 11 0
      = pmValNative ['1', '1', '0'] 4 11 := by
    rw [show (waveformsNative ['1', '1', '0'] 4).pm
        = (List.range (4 * (['1', '1', '0'] : List Char).length)).map
            (pmValNative ['1', '1', '0'] 4) from rfl,
      getD_map_range _ 0 _ 11 (by norm_num)]
  have en : (waveformsNumpy ['1', '1', '0'] 4).pm.getD 9 0
      = pmVal ['1', '1', '0'] 4 9 := by
    rw [show (waveformsNumpy ['1', '1', '0'] 4).pm
        = (List.range ((['1', '1', '0'] : List Char).length * 4)).map
            (pmVal ['1', '1', '0'] 4) from rfl,
      getD_map_range _ 0 _ 9 (by norm_num)]
  refine ⟨?_, ?_, ?_, ?_⟩
  · rw [e9, pmValNative, show (9 : ℕ) % 4 = 1 from rfl, h9, sinTNative_eq,
      sinT_four_one]
    norm_num
  · rw [e11, pmValNative, show (11 : ℕ) % 4 = 3 from rfl, h11, sinTNative_eq,
      sinT_four_three]
    norm_num
  · rw [sinT_four_one]
  · rw [en, pmVal, show (9 : ℕ) / 4 = 2 from rfl, show (9 : ℕ) % 4 = 1 from rfl,
      hn2, sinT_four_one]
    norm_num

end Waveform
